import Mathlib

/-!
Verification of the chat-export-plugin repository (a Chrome extension that
extracts messages from messaging web pages and exports them to CSV).

The JavaScript source is shallowly embedded: strings are Lean `String`
(logically a list of `Char`, matching JS strings over the characters used
here, which are all in the Basic Multilingual Plane), DOM queries are
modelled as functions from selector strings to lists of abstract elements,
and the asynchronous request/response channel between the background
service worker and the content script is modelled as a function from a
chat key to the response the content script would produce.
-/

set_option maxRecDepth 100000

namespace ChatExport

/-! ## JavaScript string primitives

Models of the JS string methods used by the source: `trim`, `toLowerCase`,
`startsWith`, `includes`, `split(' ')[0]`, `substring`. All inputs in this
development are ASCII, where these models agree with JS semantics. -/

/-- Whitespace recognized by the JS `trim` (restricted to the ASCII
whitespace characters that occur in this development). -/
def isJsSpace (c : Char) : Bool :=
  c = ' ' || c = '\t' || c = '\n' || c = '\r' || c = '\x0b' || c = '\x0c'

/-- Model of the JS `String.prototype.trim`: remove leading and trailing
whitespace. -/
def jsTrim (s : String) : String :=
  ⟨((s.data.dropWhile isJsSpace).reverse.dropWhile isJsSpace).reverse⟩

/-- Model of the JS `String.prototype.toLowerCase` (ASCII range). -/
def jsToLower (s : String) : String :=
  ⟨s.data.map Char.toLower⟩

/-- Boolean test: the first list is an initial segment of the second. -/
def prefixOfB : List Char → List Char → Bool
  | [], _ => true
  | _ :: _, [] => false
  | a :: as, b :: bs => a == b && prefixOfB as bs

/-- Boolean test: the first list occurs contiguously inside the second. -/
def infixOfB : List Char → List Char → Bool
  | needle, [] => prefixOfB needle []
  | needle, c :: rest => prefixOfB needle (c :: rest) || infixOfB needle rest

/-- Model of the JS `s.startsWith(p)`. -/
def jsStartsWith (s p : String) : Bool :=
  prefixOfB p.data s.data

/-- Model of the JS `hay.includes(needle)`. -/
def jsIncludes (hay needle : String) : Bool :=
  infixOfB needle.data hay.data

/-- Model of the JS `s.split(' ')[0]`: the characters before the first
space (the whole string when it has no space). -/
def jsFirstWord (s : String) : String :=
  ⟨s.data.takeWhile (fun c => !(c == ' '))⟩

/-! ## selectors.js — the primary/fallback query engine

`queryWithFallback` / `queryAllWithFallback` from src/selectors.js
(lines 271-293). A document subtree is modelled as a query function
`q : String → List α` giving, for each selector string, the list of
matching elements in document order; `root.querySelector(sel)` is the head
of that list. A JS falsy `fallback` field (absent or empty) is modelled by
the empty string. Lean functions are total, so the source's "never throws
on not found" is inherent in the model. -/

structure SelectorPair where
  primary : String
  fallback : String
deriving DecidableEq

/-- `queryWithFallback(root, selectorPair)` from src/selectors.js:
try `primary` with `querySelector`; if no element and `fallback` is
truthy, try `fallback`. -/
def queryWithFallback {α : Type} (q : String → List α) (pair : SelectorPair) : Option α :=
  match (q pair.primary).head? with
  | some el => some el
  | none => if pair.fallback == "" then none else (q pair.fallback).head?

/-- `queryAllWithFallback(root, selectorPair)` from src/selectors.js:
`querySelectorAll` on `primary`; if the result set is empty and `fallback`
is truthy, `querySelectorAll` on `fallback`. -/
def queryAllWithFallback {α : Type} (q : String → List α) (pair : SelectorPair) : List α :=
  let els := q pair.primary
  if els.length == 0 && !(pair.fallback == "") then q pair.fallback else els

/-! ## csv.js — tabular encoding (src/unnamed/part_000, utils/csv.js) -/

/-- `CSV_COLUMNS` from utils/csv.js. -/
def CSV_COLUMNS : List String :=
  ["Platform", "Message Date", "Sender", "Receiver", "Message Text"]

/-- `MAX_TEXT_LENGTH` from utils/csv.js. -/
def MAX_TEXT_LENGTH : Nat := 500

/-- The UTF-8 byte-order mark character prepended by `buildCSV`. -/
def bomChar : Char := Char.ofNat 0xFEFF

/-- `UTF8_BOM` from utils/csv.js. -/
def UTF8_BOM : String := ⟨[bomChar]⟩

/-- Model of the JS `Array.prototype.join(sep)`. -/
def joinSep (sep : String) : List String → String
  | [] => ""
  | [x] => x
  | x :: y :: rest => x ++ sep ++ joinSep sep (y :: rest)

/-- The quoting condition of `escapeCSVField`: the field contains a
double quote, comma, line feed or carriage return. -/
def needsQuote (s : String) : Bool :=
  s.data.contains '\"' || s.data.contains ',' || s.data.contains '\n' || s.data.contains '\r'

/-- The JS `str.replace(/"/g, '""')`: double every double quote. -/
def doubleQuotes (s : String) : String :=
  ⟨(s.data.map (fun c => if c == '\"' then ['\"', '\"'] else [c])).flatten⟩

/-- `escapeCSVField(value)` from utils/csv.js: wrap in double quotes,
doubling embedded quotes, when the field contains a quote, comma, or
line break; otherwise return it unchanged. -/
def escapeCSVField (value : String) : String :=
  if needsQuote value then "\"" ++ doubleQuotes value ++ "\"" else value

/-- `truncateText(text, maxLength)` from utils/csv.js: empty input gives
the empty string; otherwise trim, return the trimmed text when its length
is at most `maxLength`, else its first `maxLength - 3` characters followed
by an ellipsis. -/
def truncateText (text : String) (maxLength : Nat) : String :=
  if text == "" then ""
  else
    let trimmed := jsTrim text
    if trimmed.length ≤ maxLength then trimmed
    else ⟨trimmed.data.take (maxLength - 3)⟩ ++ "..."

/-- The `ExtractedMessage` record produced by the content script's
COLLECT stage and consumed by the data pipeline. -/
structure Msg where
  platform : String
  messageDateRaw : String
  sender : String
  receiver : String
  text : String
  chatKey : String
deriving DecidableEq

/-- `buildCSVRow(msg)` from utils/csv.js: escape the five fields (with
an empty platform defaulting to "Linkedin" and the text truncated to 500
characters) and join them with commas. -/
def buildCSVRow (msg : Msg) : String :=
  joinSep ","
    [ escapeCSVField (if msg.platform == "" then "Linkedin" else msg.platform)
    , escapeCSVField msg.messageDateRaw
    , escapeCSVField msg.sender
    , escapeCSVField msg.receiver
    , escapeCSVField (truncateText msg.text MAX_TEXT_LENGTH) ]

/-- `buildCSV(messages)` from utils/csv.js: the BOM, then the escaped
header row, a newline, and the data rows joined by newlines. -/
def buildCSV (messages : List Msg) : String :=
  UTF8_BOM ++ joinSep "," (CSV_COLUMNS.map escapeCSVField) ++ "\n"
    ++ joinSep "\n" (messages.map buildCSVRow)

/-- Number of line-feed characters in a string. A JS
`s.split('\n').length` equals this count plus one. -/
def nlCount (s : String) : Nat :=
  s.data.count '\n'

/-- A string is clean when it contains no line feed and no carriage
return; a row built from clean fields occupies a single physical line. -/
def noLineBreak (s : String) : Bool :=
  !(s.data.contains '\n') && !(s.data.contains '\r')

/-- All five exported fields of a message are free of line breaks. -/
def msgNoLineBreak (m : Msg) : Bool :=
  noLineBreak m.platform && noLineBreak m.messageDateRaw && noLineBreak m.sender
    && noLineBreak m.receiver && noLineBreak m.text

/-! ## csv.js — mergeByConversation

`mergeByConversation(messages)` from utils/csv.js builds a JS `Map` keyed
by `chatKey` (iteration follows insertion order): the first message of a
key seeds the entry, later ones append their text to `_texts` and their
raw date to `messageDateRaw`; finally each entry's text becomes the
`" | "`-join of `_texts`, truncated to 500 characters. The `Map` is
modelled as an association list in insertion order. -/

/-- A grouped entry of `mergeByConversation`'s `Map` before the final
text join (`_texts` holds the accumulated message texts). -/
structure GEntry where
  platform : String
  messageDateRaw : String
  sender : String
  receiver : String
  chatKey : String
  texts : List String
deriving DecidableEq

/-- One step of `mergeByConversation`'s grouping loop: update the entry
with the message's `chatKey` when present, otherwise append a new entry. -/
def insertMsg (acc : List GEntry) (m : Msg) : List GEntry :=
  if acc.any (fun e => e.chatKey == m.chatKey) then
    acc.map (fun e =>
      if e.chatKey == m.chatKey then
        { e with
          messageDateRaw := e.messageDateRaw ++ "; " ++ m.messageDateRaw
          texts := e.texts ++ [m.text] }
      else e)
  else
    acc ++ [{ platform := m.platform, messageDateRaw := m.messageDateRaw,
              sender := m.sender, receiver := m.receiver,
              chatKey := m.chatKey, texts := [m.text] }]

/-- The grouping loop of `mergeByConversation`. -/
def groupMsgs (messages : List Msg) : List GEntry :=
  messages.foldl insertMsg []

/-- The final pass of `mergeByConversation`: join the accumulated texts
with `" | "` and truncate to 500 characters. -/
def finalizeEntry (e : GEntry) : Msg :=
  { platform := e.platform, messageDateRaw := e.messageDateRaw,
    sender := e.sender, receiver := e.receiver,
    text := truncateText (joinSep " | " e.texts) MAX_TEXT_LENGTH,
    chatKey := e.chatKey }

/-- `mergeByConversation(messages)` from utils/csv.js. -/
def mergeByConversation (messages : List Msg) : List Msg :=
  (groupMsgs messages).map finalizeEntry

/-- The distinct chat keys of a message list, in order of first
appearance. (Specification-side definition, used to state what
`mergeByConversation` computes.) -/
def firstKeys : List Msg → List String
  | [] => []
  | m :: rest => m.chatKey :: firstKeys (rest.filter (fun x => !(x.chatKey == m.chatKey)))
termination_by l => l.length
decreasing_by
  simp only [List.length_cons]
  exact Nat.lt_succ_of_le (List.length_filter_le _ _)

/-- The grouped entry a chat key should receive according to the claim:
header fields copied from the first message bearing the key, raw dates
joined with `"; "` in input order, texts kept in input order. -/
def entryOf (k : String) (messages : List Msg) : GEntry :=
  let ms := messages.filter (fun x => x.chatKey == k)
  { platform := ((ms.head?).map Msg.platform).getD ""
  , messageDateRaw := joinSep "; " (ms.map Msg.messageDateRaw)
  , sender := ((ms.head?).map Msg.sender).getD ""
  , receiver := ((ms.head?).map Msg.receiver).getD ""
  , chatKey := k
  , texts := ms.map Msg.text }

/-- Specification-side grouping: one entry per distinct chat key in
first-appearance order. -/
def specEntries (messages : List Msg) : List GEntry :=
  (firstKeys messages).map (fun k => entryOf k messages)

/-- Specification-side statement of `mergeByConversation`, written from
the claim: one row per distinct chatKey in first-appearance order, header
fields from that key's first message, dates joined with `"; "`, texts
joined with `" | "` then truncated to 500 characters. -/
def mergeByConversationSpec (messages : List Msg) : List Msg :=
  (firstKeys messages).map (fun k => finalizeEntry (entryOf k messages))

/-! ## service_worker.js — date filter (filterMessages, lines 201-220)

JS `new Date(raw)` is modelled by an abstract parse function
`jsDate : String → Option Int` returning the epoch value, or `none` for
an invalid date. A comparison against an invalid date is false in JS,
which the model reproduces. -/

/-- The `Settings` record read by the extractor and the pipeline. -/
structure Settings where
  senderName : String
  messagesPerChat : Nat
  rowMode : String
  dateFrom : String
  dateTo : String
  redactPII : Bool
deriving DecidableEq

/-- `parseLooseDate(raw)` from src/service_worker.js: `null` for a falsy
input or an unparseable date. -/
def parseLooseDate (jsDate : String → Option Int) (raw : String) : Option Int :=
  if raw == "" then none else jsDate raw

/-- The predicate of `filterMessages`'s `filter` callback: a message is
kept unless a configured, parseable bound excludes its parsed date;
messages with unparseable dates are always kept. -/
def keepMsg (jsDate : String → Option Int) (s : Settings) (m : Msg) : Bool :=
  if s.dateFrom == "" && s.dateTo == "" then true
  else
    match parseLooseDate jsDate m.messageDateRaw with
    | none => true
    | some d =>
      if !(s.dateFrom == "")
          && (match jsDate s.dateFrom with
              | some f => decide (d < f)
              | none => false) then false
      else if !(s.dateTo == "")
          && (match jsDate (s.dateTo ++ "T23:59:59") with
              | some t => decide (t < d)
              | none => false) then false
      else true

/-- `filterMessages(messages, settings)` from src/service_worker.js:
identity when `settings` is falsy, else filter by `keepMsg`. -/
def filterMessages (jsDate : String → Option Int) (settings : Option Settings)
    (messages : List Msg) : List Msg :=
  match settings with
  | none => messages
  | some s => messages.filter (keepMsg jsDate s)

/-- The keep condition as the specification words it: neither bound set,
or the raw date fails to parse, or the parsed date lies within
`[dateFrom, dateTo 23:59:59]` inclusive (each bound only when set). `f`
and `t` are the parsed values of the configured bounds. -/
def specKeep (jsDate : String → Option Int) (s : Settings) (f t : Int) (m : Msg) : Prop :=
  (s.dateFrom = "" ∧ s.dateTo = "")
  ∨ parseLooseDate jsDate m.messageDateRaw = none
  ∨ (∃ d, parseLooseDate jsDate m.messageDateRaw = some d
        ∧ (s.dateFrom ≠ "" → f ≤ d)
        ∧ (s.dateTo ≠ "" → d ≤ t))

/-! ## Content script — sender attribution

`isSenderMatch(extracted, senderName)` appears identically in
src/content_script.js (lines 405-411) and src/unnamed/part_002
(lines 511-517). -/

/-- `isSenderMatch(extracted, senderName)`: false when either string is
falsy; otherwise, after lowercasing and trimming both, match on equality,
or the extracted value starting with the configured name's first word, or
the configured name containing the extracted value. -/
def isSenderMatch (extracted senderName : String) : Bool :=
  if extracted == "" || senderName == "" then false
  else
    let a := jsTrim (jsToLower extracted)
    let b := jsTrim (jsToLower senderName)
    a == b || jsStartsWith a (jsToLower (jsFirstWord b)) || jsIncludes b a

/-- The attribution decision `const isMine = !sender ||
isSenderMatch(sender, senderName)` used by the flat-item and directanchor
extraction strategies (src/unnamed/part_002 lines 493, 430, 407): an
empty extracted sender, or a fuzzy match, attributes the message to the
user. -/
def isMine (extracted senderName : String) : Bool :=
  extracted == "" || isSenderMatch extracted senderName

/-- The attribution condition exactly as the claim words it: empty
extracted sender, or (after lowercasing and trimming) equality, or the
extracted value being a prefix of the configured sender's first name, or
the configured name containing the extracted value. -/
def specAttributedOriginal (extracted senderName : String) : Bool :=
  extracted == ""
    || (let a := jsTrim (jsToLower extracted)
        let b := jsTrim (jsToLower senderName)
        a == b || prefixOfB a.data (jsFirstWord b).data || jsIncludes b a)

/-- The amended attribution condition: as the claim, but with the prefix
test in the direction the code implements — the configured sender's first
name (lowercased) is a prefix of the extracted value — and the fuzzy
disjunction applying only when both strings are nonempty. -/
def specAttributedAmended (extracted senderName : String) : Bool :=
  extracted == ""
    || (!(extracted == "") && !(senderName == "")
        && (let a := jsTrim (jsToLower extracted)
            let b := jsTrim (jsToLower senderName)
            a == b || prefixOfB (jsToLower (jsFirstWord b)).data a.data || jsIncludes b a))

/-! ## Content script — opening a conversation

`openChat(chatKey)` exists in two versions. The one in
src/content_script.js (lines 191-231) falls back to assigning
`location.href` when the conversation is not in the rendered list; the
revised one in src/unnamed/part_002 (lines 238-266) never navigates and
reports failure instead. A conversation list item is modelled by its
link's `href` (when a link matches the item-link selector) and its
cleaned display name. -/

/-- A rendered conversation list item as `openChat` sees it. -/
structure ConvItem where
  linkHref : Option String
  name : String
deriving DecidableEq

/-- `chatKeyToName(chatKey)`: de-slugify a synthetic `chat_` key back to
a display name (drop the prefix, underscores to spaces). -/
def chatKeyToName (chatKey : String) : String :=
  if jsStartsWith chatKey "chat_" then
    ⟨(chatKey.data.drop 5).map (fun c => if c == '_' then ' ' else c)⟩
  else chatKey

/-- The loop body condition of `openChat`: the item's link href contains
the chatKey, or the item's cleaned name equals the de-slugified chatKey
case-insensitively (both nonempty). -/
def convItemMatches (chatKey : String) (item : ConvItem) : Bool :=
  (match item.linkHref with
   | some h => jsIncludes h chatKey
   | none => false)
  || (let expectedName := chatKeyToName chatKey
      !(item.name == "") && !(expectedName == "")
        && jsToLower item.name == jsToLower expectedName)

/-- The observable outcome of `openChat`: whether it reported success,
and the URL assigned to `location.href` when it navigated. -/
structure OpenOutcome where
  opened : Bool
  navigatedTo : Option String
deriving DecidableEq

/-- The last-resort navigation URL of src/content_script.js `openChat`. -/
def navUrl (origin platformId chatKey : String) : String :=
  origin ++ (if platformId == "sales_navigator"
             then "/sales/inbox/" ++ chatKey ++ "/"
             else "/messaging/thread/" ++ chatKey ++ "/")

namespace ContentScriptV1

/-- `openChat(chatKey)` from src/content_script.js (lines 191-231): click
a matching list item; otherwise, for a non-synthetic key not already in
the current URL, assign `location.href` to the thread URL and report
success; otherwise fail. -/
def openChat (items : List ConvItem) (chatKey currentUrl origin platformId : String) :
    OpenOutcome :=
  if items.any (convItemMatches chatKey) then ⟨true, none⟩
  else if !(chatKey == "") && !(jsStartsWith chatKey "chat_")
      && !(jsIncludes currentUrl chatKey) then
    ⟨true, some (navUrl origin platformId chatKey)⟩
  else ⟨false, none⟩

end ContentScriptV1

namespace ContentScriptV2

/-- `openChat(chatKey)` from src/unnamed/part_002 (lines 238-266): click
a matching list item; otherwise log and fail — deliberately without any
`location.href` fallback. -/
def openChat (items : List ConvItem) (chatKey : String) : OpenOutcome :=
  if items.any (convItemMatches chatKey) then ⟨true, none⟩
  else ⟨false, none⟩

end ContentScriptV2

/-! ## Content script — extractChat

The extraction state machine OPEN_CHAT → WAIT_RENDER → SCROLL_TOP →
COLLECT (src/content_script.js lines 131-187, src/unnamed/part_002 lines
173-234; the COLLECT tail is identical in both). The page-dependent
stages are abstracted by their outcomes: whether the chat opened, whether
messages rendered in time, and the message list COLLECT assembled. -/

/-- The successful response of `extractChat`. -/
structure ChatResponse where
  messages : List Msg
  allMessages : List Msg
  total : Nat
  collected : Nat
  partialFlag : Bool
deriving DecidableEq

/-- A content script response: either a successful payload or an object
with an `error` field. (The field `partialFlag` models the response's
`partial` flag.) -/
inductive ExtractResult where
  | ok (resp : ChatResponse)
  | err (reason : String)
deriving DecidableEq

/-- Whether a response is successful. -/
def isOkResult : ExtractResult → Bool
  | .ok _ => true
  | .err _ => false

/-- `extractChat(chatKey, settings)`: fail when the chat cannot be
opened or messages do not render; otherwise keep the first `n` collected
messages whose sender is the configured user, flag the result partial
when fewer than `n` were found, and cap the context list at `3 n`. -/
def extractChat (opened rendered : Bool) (collectedMsgs : List Msg)
    (senderName : String) (n : Nat) : ExtractResult :=
  if !opened then .err "Could not open chat"
  else if !rendered then .err "Messages did not render in time"
  else
    let myMessages := collectedMsgs.filter (fun m => m.sender == senderName)
    let firstN := myMessages.take n
    .ok { messages := firstN
        , allMessages := collectedMsgs.take (n * 3)
        , total := collectedMsgs.length
        , collected := firstN.length
        , partialFlag := decide (firstN.length < n) }

/-! ## Content script — inbox-scan convergence loop

The scroll-and-recount loop of `scanInbox` (src/unnamed/part_002 lines
86-110). The environment is abstracted as `counts : Nat → Nat`, the
number of conversation items observed at each round. The function
returns the number of iterations the loop body executes. -/

/-- The round cap `maxScrollAttempts` of the scan loop. -/
def maxScrollAttempts : Nat := 30

/-- The scan convergence loop: at round `i` (while `i <
maxScrollAttempts`) observe `counts i`; when it equals the previous
count, grow the stable streak and stop once the streak reaches 3;
otherwise reset the streak; then scroll and continue. Returns the number
of executed iterations. -/
def scanLoop (counts : Nat → Nat) (prev streak i : Nat) : Nat :=
  if h : i < maxScrollAttempts then
    let c := counts i
    if c = prev then
      if streak + 1 ≥ 3 then i + 1
      else scanLoop counts c (streak + 1) (i + 1)
    else scanLoop counts c 0 (i + 1)
  else i
termination_by maxScrollAttempts - i
decreasing_by
  all_goals simp only [maxScrollAttempts] at h ⊢
  all_goals omega

/-- The number of iterations the scan loop of `scanInbox` executes for a
given sequence of observed counts (`prevCount` starts at 0, the stable
streak at 0). -/
def scanRounds (counts : Nat → Nat) : Nat :=
  scanLoop counts 0 0 0

/-- The previous-count value the loop compares against at round `j`:
the initial 0 at round 0, afterwards the count observed a round earlier. -/
def prevAt (counts : Nat → Nat) : Nat → Nat
  | 0 => 0
  | j + 1 => counts j

/-- Round `j`'s comparison is stable: the observed count equals the
previous one. -/
def stableAt (counts : Nat → Nat) (j : Nat) : Prop :=
  counts j = prevAt counts j

/-! ## service_worker.js — queue orchestration

`processQueue(queue, settings)` (src/service_worker.js lines 153-199) in
the absence of cancellation: the channel to the content script is
modelled as `channel : String → ExtractResult` (a thrown
`chrome.tabs.sendMessage` surfaces as the object
`{error: 'Content script not responding: ...'}` built by
`forwardToContentScript`, so an unreachable channel is an `err` response
like any other). The model additionally records, in `attempted`, every
chat key for which an extraction request was sent. -/

/-- The mutable run state of the orchestrator, plus the trace of
attempted extraction requests. -/
structure QueueState where
  attempted : List String
  processedChatKeys : List String
  failures : List (String × String)
  extractedMessages : List Msg
deriving DecidableEq

/-- The run state at the start of `processQueue`. -/
def initialQueueState : QueueState :=
  { attempted := [], processedChatKeys := [], failures := [], extractedMessages := [] }

/-- One iteration of `processQueue`'s loop: send the extraction request;
on an error response record one failure for the key; on success append
the date-filtered messages and mark the key processed. -/
def processItem (jsDate : String → Option Int) (channel : String → ExtractResult)
    (settings : Option Settings) (st : QueueState) (chatKey : String) : QueueState :=
  let st1 := { st with attempted := st.attempted ++ [chatKey] }
  match channel chatKey with
  | .err reason => { st1 with failures := st1.failures ++ [(chatKey, reason)] }
  | .ok resp =>
    { st1 with
      extractedMessages := st1.extractedMessages ++ filterMessages jsDate settings resp.messages
      processedChatKeys := st1.processedChatKeys ++ [chatKey] }

/-- The final `done` progress snapshot broadcast after the loop. -/
structure Progress where
  status : String
  processed : Nat
  total : Nat
  failures : Nat
deriving DecidableEq

/-- `processQueue(queue, settings)` without cancellation: process every
queued key in order, then broadcast the terminal `done` snapshot. -/
def processQueue (jsDate : String → Option Int) (channel : String → ExtractResult)
    (settings : Option Settings) (queue : List String) : QueueState × Progress :=
  let final := queue.foldl (processItem jsDate channel settings) initialQueueState
  (final,
   { status := "done"
   , processed := final.processedChatKeys.length
   , total := queue.length
   , failures := final.failures.length })

/-! ## Concrete scenario inputs -/

/-- A date parser that fails on every string (used where dates are
irrelevant). -/
def jsDateNone : String → Option Int := fun _ => none

/-- The error message `forwardToContentScript` produces when
`chrome.tabs.sendMessage` throws because the content script is
unreachable. -/
def channelLostReason : String :=
  "Content script not responding: Receiving end does not exist. Try refreshing the LinkedIn page."

/-- A sample extracted message from conversation `b`. -/
def msgHello : Msg :=
  { platform := "Linkedin", messageDateRaw := "2025-01-01",
    sender := "Kate Kondrateva", receiver := "Alice Smith",
    text := "Hi", chatKey := "b" }

/-- A channel where the content script is unreachable for conversation
`a` and answers normally for every other conversation. -/
def channelC1 : String → ExtractResult := fun k =>
  if k == "a" then .err channelLostReason
  else .ok { messages := [msgHello], allMessages := [msgHello],
             total := 1, collected := 1, partialFlag := false }

/-- A date parser for the date-filter scenario: the configured bounds
parse to 100 and 900, the message date to 500. -/
def jsDateW : String → Option Int := fun s =>
  if s == "2024-01-01" then some 100
  else if s == "2024-12-31T23:59:59" then some 900
  else if s == "2024-06-15" then some 500
  else none

/-- Settings with both date bounds configured. -/
def settingsW : Settings :=
  { senderName := "Kate Kondrateva", messagesPerChat := 8, rowMode := "message",
    dateFrom := "2024-01-01", dateTo := "2024-12-31", redactPII := true }

/-- A message dated inside the configured bounds of `settingsW`. -/
def msgW : Msg :=
  { platform := "Linkedin", messageDateRaw := "2024-06-15",
    sender := "Kate Kondrateva", receiver := "Bob",
    text := "hello", chatKey := "k1" }

/-- A collected message authored by the configured user. -/
def msgU : Msg :=
  { platform := "Linkedin", messageDateRaw := "d1", sender := "Kate Kondrateva",
    receiver := "Bob", text := "hi", chatKey := "c" }

/-- A collected message authored by the other party. -/
def msgO : Msg :=
  { platform := "Linkedin", messageDateRaw := "d2", sender := "Bob",
    receiver := "Kate Kondrateva", text := "yo", chatKey := "c" }

/-! # Theorems -/

/-! ## Shared helper lemmas -/

theorem strLength_data (s : String) : s.length = s.data.length := rfl

theorem prefixOfB_append (a : List Char) :
    ∀ b r, prefixOfB a b = true → prefixOfB a (b ++ r) = true := by
  induction a with
  | nil => intro b r _; rfl
  | cons x xs ih =>
    intro b r h
    cases b with
    | nil => simp [prefixOfB] at h
    | cons y ys =>
      simp only [prefixOfB, Bool.and_eq_true] at h
      simp only [List.cons_append, prefixOfB, Bool.and_eq_true]
      exact ⟨h.1, ih ys r h.2⟩

theorem prefixOfB_infixOfB (a b : List Char) (h : prefixOfB a b = true) :
    infixOfB a b = true := by
  cases b with
  | nil => exact h
  | cons y ys => simp [infixOfB, h]

theorem jsTrim_length_le (s : String) : (jsTrim s).length ≤ s.length := by
  rw [strLength_data, strLength_data, jsTrim]
  have h1 : (s.data.dropWhile isJsSpace).length ≤ s.data.length :=
    (List.dropWhile_sublist _).length_le
  have h2 : ((s.data.dropWhile isJsSpace).reverse.dropWhile isJsSpace).length
      ≤ (s.data.dropWhile isJsSpace).reverse.length :=
    (List.dropWhile_sublist _).length_le
  simp only [List.length_reverse] at h2 ⊢
  omega

theorem jsTrim_subset (s : String) (c : Char) (h : c ∈ (jsTrim s).data) : c ∈ s.data := by
  simp only [jsTrim] at h
  rw [List.mem_reverse] at h
  have h2 := (List.dropWhile_sublist isJsSpace).mem h
  rw [List.mem_reverse] at h2
  exact (List.dropWhile_sublist isJsSpace).mem h2

/-! ## C3 — querySingle/queryAll primary-fallback contract -/

/-- C3: for every query engine and selector pair (with a truthy fallback),
`queryWithFallback` returns the primary match when the primary selector
matches at least one element and otherwise the fallback match or none
(the Lean model is total, so it cannot throw); `queryAllWithFallback`
returns the fallback result set exactly when the primary result set is
empty, and the result is always one of the two sets, never a merge. -/
theorem queryWithFallback_spec {α : Type} (q : String → List α) (pair : SelectorPair)
    (hfb : pair.fallback ≠ "") :
    (q pair.primary ≠ [] →
        queryWithFallback q pair = (q pair.primary).head?
        ∧ queryAllWithFallback q pair = q pair.primary)
    ∧ (q pair.primary = [] →
        queryWithFallback q pair = (q pair.fallback).head?
        ∧ queryAllWithFallback q pair = q pair.fallback)
    ∧ (queryAllWithFallback q pair = q pair.primary
        ∨ queryAllWithFallback q pair = q pair.fallback) := by
  have hfb' : (pair.fallback == "") = false := by
    simp only [beq_eq_false_iff_ne, ne_eq]
    exact hfb
  refine ⟨?_, ?_, ?_⟩
  · intro hp
    cases hq : q pair.primary with
    | nil => exact absurd hq hp
    | cons x xs =>
      constructor
      · simp [queryWithFallback, hq]
      · simp [queryAllWithFallback, hq]
  · intro hp
    constructor
    · simp [queryWithFallback, hp, hfb']
    · simp [queryAllWithFallback, hp, hfb']
  · cases hq : q pair.primary with
    | nil => right; simp [queryAllWithFallback, hq, hfb']
    | cons x xs => left; simp [queryAllWithFallback, hq]

/-- Witness for C3 at a concrete query engine: a pair whose primary
matches takes the primary result, and one whose primary is empty takes
the fallback result. -/
theorem queryWithFallback_spec_witness :
    (queryAllWithFallback (fun s => if s == "p" then [1] else [2]) ⟨"p", "f"⟩ = [1]
      ∧ queryWithFallback (fun s => if s == "p" then [1] else [2]) ⟨"p", "f"⟩ = some 1)
    ∧ (queryAllWithFallback (fun s => if s == "p" then ([] : List Nat) else [2]) ⟨"p", "f"⟩ = [2]
      ∧ queryWithFallback (fun s => if s == "p" then ([] : List Nat) else [2]) ⟨"p", "f"⟩ = some 2) := by
  constructor
  · have h := (queryWithFallback_spec (fun s => if s == "p" then [1] else [2])
      ⟨"p", "f"⟩ (by decide)).1 (by decide)
    exact ⟨h.2, h.1⟩
  · have h := (queryWithFallback_spec (fun s => if s == "p" then ([] : List Nat) else [2])
      ⟨"p", "f"⟩ (by decide)).2.1 (by decide)
    exact ⟨h.2, h.1⟩

/-! ## C7 — truncateText -/

/-- C7 counterexample: the input of 501 characters `" " ++ 500 × 'a'` is
longer than 500 characters, yet `truncateText` returns the 500 `'a'`
characters unchanged — a string that does not end in `"..."` — because
the code branches on the length of the trimmed input, not of the input. -/
theorem truncateText_longInput_counterexample :
    (String.mk (' ' :: List.replicate 500 'a')).length = 501
    ∧ truncateText (String.mk (' ' :: List.replicate 500 'a')) MAX_TEXT_LENGTH
        = String.mk (List.replicate 500 'a')
    ∧ ¬((truncateText (String.mk (' ' :: List.replicate 500 'a')) MAX_TEXT_LENGTH).data.drop 497
        = ['.', '.', '.']) := by
  refine ⟨by decide, by decide, by decide⟩

/-- C7 amended: for any input whose TRIMMED form is longer than 500
characters, `truncateText` returns an exactly-500-character string ending
in `"..."`; and for inputs of length at most 500 it returns the trimmed
input unchanged. -/
theorem truncateText_amended (s : String) :
    (MAX_TEXT_LENGTH < (jsTrim s).length →
        (truncateText s MAX_TEXT_LENGTH).length = MAX_TEXT_LENGTH
        ∧ (truncateText s MAX_TEXT_LENGTH).data.drop 497 = ['.', '.', '.'])
    ∧ (s.length ≤ MAX_TEXT_LENGTH → truncateText s MAX_TEXT_LENGTH = jsTrim s) := by
  constructor
  · intro h
    have hs : (s == "") = false := by
      cases hse : s == "" with
      | true =>
        have hse' : s = "" := eq_of_beq hse
        subst hse'
        simp [MAX_TEXT_LENGTH] at h
        exact absurd h (by decide)
      | false => rfl
    have hgt : ¬((jsTrim s).length ≤ MAX_TEXT_LENGTH) := by omega
    have hres : truncateText s MAX_TEXT_LENGTH
        = String.mk ((jsTrim s).data.take (MAX_TEXT_LENGTH - 3)) ++ "..." := by
      simp [truncateText, hs, hgt]
    have hlen : ((jsTrim s).data.take (MAX_TEXT_LENGTH - 3)).length = 497 := by
      rw [List.length_take]
      rw [strLength_data] at h
      simp only [MAX_TEXT_LENGTH] at h ⊢
      omega
    have hdat : (truncateText s MAX_TEXT_LENGTH).data
        = (jsTrim s).data.take (MAX_TEXT_LENGTH - 3) ++ ['.', '.', '.'] := by
      rw [hres, String.data_append]
    constructor
    · rw [strLength_data, hdat, List.length_append, hlen]
      rfl
    · rw [hdat]
      have hd := List.drop_left ((jsTrim s).data.take (MAX_TEXT_LENGTH - 3)) ['.', '.', '.']
      rw [hlen] at hd
      exact hd
  · intro h
    cases hse : s == "" with
    | true =>
      have hse' : s = "" := eq_of_beq hse
      subst hse'
      rfl
    | false =>
      have hle : (jsTrim s).length ≤ MAX_TEXT_LENGTH := le_trans (jsTrim_length_le s) h
      simp [truncateText, hse, hle]

/-- Witness for C7 amended: a 503-character input is truncated to exactly
500 characters ending in the ellipsis, and a 2-character input is
returned trimmed. -/
theorem truncateText_amended_witness :
    (MAX_TEXT_LENGTH < (jsTrim (String.mk (List.replicate 503 'a'))).length
      ∧ (truncateText (String.mk (List.replicate 503 'a')) MAX_TEXT_LENGTH).length = MAX_TEXT_LENGTH
      ∧ (truncateText (String.mk (List.replicate 503 'a')) MAX_TEXT_LENGTH).data.drop 497
          = ['.', '.', '.'])
    ∧ truncateText "ab" MAX_TEXT_LENGTH = jsTrim "ab" := by
  refine ⟨⟨by decide, (truncateText_amended (String.mk (List.replicate 503 'a'))).1 (by decide)⟩, ?_⟩
  exact (truncateText_amended "ab").2 (by decide)

/-! ## C4 — sender attribution -/

/-- C4 counterexample: `isSenderMatch("katelyn", "Kate Kondrateva")` is
true in the code (because the code tests whether the configured sender's
first name is a prefix of the EXTRACTED value), so a message with
extracted sender "katelyn" is attributed to the user, while the claim's
condition ("the extracted value is a prefix of the sender's first name,
or the configured name contains the extracted value, or equality, or
empty") is false at that input. -/
theorem isSenderMatch_direction_counterexample :
    isMine "katelyn" "Kate Kondrateva" = true
    ∧ specAttributedOriginal "katelyn" "Kate Kondrateva" = false := by
  exact ⟨by decide, by decide⟩

/-- C4 amended: a candidate message is attributed to the user exactly
when the extracted sender is empty, or — both strings being nonempty,
after lowercasing and trimming — the two are equal, or the configured
sender's FIRST NAME IS A PREFIX OF THE EXTRACTED VALUE (the direction the
code implements, converse to the claim's wording), or the configured name
contains the extracted value. The claim's concrete examples hold:
`isSenderMatch("kate", "Kate Kondrateva") = true`,
`isSenderMatch("Bob", "Kate Kondrateva") = false`, and an empty extracted
sender is always attributed to the user. Moreover every sender accepted
by the claim's original prefix direction is still attributed to the user
(it is subsumed by the containment test). -/
theorem isMine_amended :
    (∀ e s, isMine e s = specAttributedAmended e s)
    ∧ isSenderMatch "kate" "Kate Kondrateva" = true
    ∧ isSenderMatch "Bob" "Kate Kondrateva" = false
    ∧ (∀ s, isMine "" s = true)
    ∧ (∀ e s, s ≠ "" → specAttributedOriginal e s = true → isMine e s = true) := by
  refine ⟨?_, by decide, by decide, ?_, ?_⟩
  · intro e s
    cases he : e == "" with
    | true => simp [isMine, specAttributedAmended, he]
    | false =>
      cases hs : s == "" with
      | true => simp [isMine, isSenderMatch, specAttributedAmended, he, hs]
      | false => simp [isMine, isSenderMatch, specAttributedAmended, jsStartsWith, he, hs]
  · intro s
    simp [isMine]
  · intro e s hs h
    cases he : e == "" with
    | true => simp [isMine, he]
    | false =>
      have hs' : (s == "") = false := by
        simp only [beq_eq_false_iff_ne, ne_eq]
        exact hs
      have hgoal : ((jsTrim (jsToLower e) == jsTrim (jsToLower s))
          || jsStartsWith (jsTrim (jsToLower e)) (jsToLower (jsFirstWord (jsTrim (jsToLower s))))
          || jsIncludes (jsTrim (jsToLower s)) (jsTrim (jsToLower e))) = true := by
        simp only [specAttributedOriginal, he, Bool.false_or, Bool.or_eq_true] at h
        rcases h with (h | h) | h
        · simp [h]
        · -- the extracted value is a prefix of the first word of the
          -- configured name, hence an infix of the whole configured name
          have hfw : (jsFirstWord (jsTrim (jsToLower s))).data
              = (jsTrim (jsToLower s)).data.takeWhile (fun c => !(c == ' ')) := rfl
          rw [hfw] at h
          have hpb : prefixOfB (jsTrim (jsToLower e)).data (jsTrim (jsToLower s)).data = true := by
            have h2 := prefixOfB_append (jsTrim (jsToLower e)).data
              ((jsTrim (jsToLower s)).data.takeWhile (fun c => !(c == ' ')))
              ((jsTrim (jsToLower s)).data.dropWhile (fun c => !(c == ' '))) h
            rwa [List.takeWhile_append_dropWhile] at h2
          have hinc : jsIncludes (jsTrim (jsToLower s)) (jsTrim (jsToLower e)) = true :=
            prefixOfB_infixOfB _ _ hpb
          simp [hinc]
        · simp [h]
      unfold isMine isSenderMatch
      rw [he, hs']
      simpa using hgoal

/-- Witness for C4 amended: "ka" is a prefix of the first name "kate",
so both the claim's original condition and the code attribute the message
to the user. -/
theorem isMine_amended_witness :
    specAttributedOriginal "ka" "Kate Kondrateva" = true
    ∧ isMine "ka" "Kate Kondrateva" = true :=
  ⟨by decide, isMine_amended.2.2.2.2 "ka" "Kate Kondrateva" (by decide) (by decide)⟩

/-! ## C9 — date filter -/

/-- C9: `filterMessages` is the identity for absent settings and
otherwise filters by the keep predicate, and (for bounds that parse when
configured, with values `f` and `t`) a message is kept exactly when
neither bound is set, or its raw date fails to parse (fail-open), or its
parsed date lies within `[dateFrom, dateTo 23:59:59]` inclusive. -/
theorem filterMessages_spec (jsDate : String → Option Int) (s : Settings) (m : Msg)
    (f t : Int)
    (hf : s.dateFrom ≠ "" → jsDate s.dateFrom = some f)
    (ht : s.dateTo ≠ "" → jsDate (s.dateTo ++ "T23:59:59") = some t) :
    (∀ msgs, filterMessages jsDate none msgs = msgs
        ∧ filterMessages jsDate (some s) msgs = msgs.filter (keepMsg jsDate s))
    ∧ (keepMsg jsDate s m = true ↔ specKeep jsDate s f t m) := by
  constructor
  · intro msgs
    exact ⟨rfl, rfl⟩
  · by_cases hF : s.dateFrom = ""
    · by_cases hT : s.dateTo = ""
      · constructor
        · intro _
          exact Or.inl ⟨hF, hT⟩
        · intro _
          simp [keepMsg, hF, hT]
      · have ht' := ht hT
        cases hp : parseLooseDate jsDate m.messageDateRaw with
        | none =>
          constructor
          · intro _
            exact Or.inr (Or.inl hp)
          · intro _
            simp [keepMsg, hF, hT, hp]
        | some d =>
          constructor
          · intro hk
            refine Or.inr (Or.inr ⟨d, hp, fun hc => absurd hF hc, fun _ => ?_⟩)
            simp [keepMsg, hF, hT, hp, ht'] at hk
            omega
          · intro hk
            rcases hk with ⟨_, hc⟩ | hk | ⟨d', hd', _, h2⟩
            · exact absurd hc hT
            · rw [hp] at hk
              exact absurd hk (by simp)
            · rw [hp] at hd'
              have hdd : d = d' := Option.some.inj hd'
              subst hdd
              have h2' := h2 hT
              simp [keepMsg, hF, hT, hp, ht']
              omega
    · have hf' := hf hF
      cases hp : parseLooseDate jsDate m.messageDateRaw with
      | none =>
        constructor
        · intro _
          exact Or.inr (Or.inl hp)
        · intro _
          simp [keepMsg, hF, hp]
      | some d =>
        by_cases hT : s.dateTo = ""
        · constructor
          · intro hk
            refine Or.inr (Or.inr ⟨d, hp, fun _ => ?_, fun hc => absurd hT hc⟩)
            simp [keepMsg, hF, hT, hp, hf'] at hk
            omega
          · intro hk
            rcases hk with ⟨hc, _⟩ | hk | ⟨d', hd', h1, _⟩
            · exact absurd hc hF
            · rw [hp] at hk
              exact absurd hk (by simp)
            · rw [hp] at hd'
              have hdd : d = d' := Option.some.inj hd'
              subst hdd
              have h1' := h1 hF
              simp [keepMsg, hF, hT, hp, hf']
              omega
        · have ht' := ht hT
          constructor
          · intro hk
            simp [keepMsg, hF, hT, hp, hf', ht'] at hk
            exact Or.inr (Or.inr ⟨d, hp, fun _ => by omega, fun _ => by omega⟩)
          · intro hk
            rcases hk with ⟨hc, _⟩ | hk | ⟨d', hd', h1, h2⟩
            · exact absurd hc hF
            · rw [hp] at hk
              exact absurd hk (by simp)
            · rw [hp] at hd'
              have hdd : d = d' := Option.some.inj hd'
              subst hdd
              have h1' := h1 hF
              have h2' := h2 hT
              simp [keepMsg, hF, hT, hp, hf', ht']
              omega

/-- Witness for C9: with bounds parsing to 100 and 900 and a message
date parsing to 500, the message is kept. -/
theorem filterMessages_spec_witness :
    keepMsg jsDateW settingsW msgW = true
    ∧ filterMessages jsDateW (some settingsW) [msgW] = [msgW] := by
  constructor
  · exact (filterMessages_spec jsDateW settingsW msgW 100 900
      (fun _ => by decide) (fun _ => by decide)).2.mpr
      (Or.inr (Or.inr ⟨500, by decide, fun _ => by decide, fun _ => by decide⟩))
  · decide

/-! ## C5 — extractChat returns the first N user messages -/

/-- C5: for every collected message list and every `N ≥ 1`, a successful
`extractChat` returns exactly the first `N` messages attributed to the
configured user (all of them when fewer exist), preserving document order
(the result is a sublist of the collected list and every element is
user-attributed), and the returned `partial` flag is true exactly when
fewer than `N` user-attributed messages were found. -/
theorem extractChat_firstN (collectedMsgs : List Msg) (senderName : String) (n : Nat)
    (_hn : 1 ≤ n) :
    ∃ resp, extractChat true true collectedMsgs senderName n = ExtractResult.ok resp
      ∧ resp.messages = (collectedMsgs.filter (fun m => m.sender == senderName)).take n
      ∧ List.Sublist resp.messages collectedMsgs
      ∧ (∀ m, m ∈ resp.messages → m.sender = senderName)
      ∧ (resp.partialFlag = true
          ↔ (collectedMsgs.filter (fun m => m.sender == senderName)).length < n) := by
  refine ⟨_, rfl, rfl, ?_, ?_, ?_⟩
  · exact ((List.take_sublist n _).trans (List.filter_sublist collectedMsgs))
  · intro m hm
    have hm' := List.take_subset n _ hm
    have := List.of_mem_filter hm'
    exact eq_of_beq this
  · simp only [decide_eq_true_eq, List.length_take]
    omega

/-- Witness for C5: two collected messages, one from the user; with
`N = 1` the user's message is returned and the partial flag is false. -/
theorem extractChat_firstN_witness :
    ∃ resp : ChatResponse,
      extractChat true true [msgU, msgO] "Kate Kondrateva" 1 = ExtractResult.ok resp
      ∧ resp.messages
          = (List.filter (fun m => m.sender == "Kate Kondrateva") [msgU, msgO]).take 1
      ∧ List.Sublist resp.messages [msgU, msgO]
      ∧ (∀ m, m ∈ resp.messages → m.sender = "Kate Kondrateva")
      ∧ (resp.partialFlag = true
          ↔ (List.filter (fun m => m.sender == "Kate Kondrateva") [msgU, msgO]).length < 1) :=
  extractChat_firstN [msgU, msgO] "Kate Kondrateva" 1 (Nat.le_refl 1)

/-! ## C8 — buildCSV -/

theorem contains_false_iff (l : List Char) (c : Char) : l.contains c = false ↔ c ∉ l := by
  simp [List.contains]

theorem nlCount_append (a b : String) : nlCount (a ++ b) = nlCount a + nlCount b := by
  unfold nlCount
  rw [String.data_append, List.count_append]

theorem count_doubleQuotes (l : List Char) (h : '\n' ∉ l) :
    ((l.map (fun c => if c == '\"' then ['\"', '\"'] else [c])).flatten).count '\n' = 0 := by
  induction l with
  | nil => rfl
  | cons c cs ih =>
    have hc : c ≠ '\n' := fun hcn => h (hcn ▸ List.mem_cons_self c cs)
    have hcs : '\n' ∉ cs := fun hmem => h (List.mem_cons_of_mem c hmem)
    simp only [List.map_cons, List.flatten_cons, List.count_append, ih hcs, Nat.add_zero]
    cases hq : c == '\"' with
    | true => rfl
    | false =>
      simp [hc, Ne.symm hc]

theorem escapeCSVField_nlCount (v : String) (h : '\n' ∉ v.data) :
    nlCount (escapeCSVField v) = 0 := by
  by_cases hq : needsQuote v = true
  · rw [escapeCSVField, if_pos hq, nlCount_append, nlCount_append]
    have h1 : nlCount "\"" = 0 := rfl
    have h2 : nlCount (doubleQuotes v) = 0 := count_doubleQuotes v.data h
    omega
  · rw [escapeCSVField, if_neg hq]
    exact List.count_eq_zero.mpr h

theorem truncateText_no_nl (s : String) (h : '\n' ∉ s.data) :
    '\n' ∉ (truncateText s MAX_TEXT_LENGTH).data := by
  have htr : '\n' ∉ (jsTrim s).data := fun hmem => h (jsTrim_subset s '\n' hmem)
  by_cases hse : (s == "") = true
  · simp [truncateText, hse]
  · by_cases hle : (jsTrim s).length ≤ MAX_TEXT_LENGTH
    · simp only [truncateText, if_neg hse, if_pos hle]
      exact htr
    · simp only [truncateText, if_neg hse, if_neg hle]
      rw [String.data_append]
      intro hmem
      rcases List.mem_append.mp hmem with hmem | hmem
      · exact htr (List.take_subset _ _ hmem)
      · simp at hmem

theorem joinSep_nlCount_zero (sep : String) (hsep : nlCount sep = 0) :
    ∀ l : List String, (∀ x ∈ l, nlCount x = 0) → nlCount (joinSep sep l) = 0 := by
  intro l
  induction l with
  | nil => intro _; rfl
  | cons x xs ih =>
    intro h
    cases xs with
    | nil => exact h x (List.mem_singleton.mpr rfl)
    | cons y rest =>
      rw [joinSep, nlCount_append, nlCount_append]
      have hx : nlCount x = 0 := h x (List.mem_cons_self _ _)
      have hrest : nlCount (joinSep sep (y :: rest)) = 0 :=
        ih (fun z hz => h z (List.mem_cons_of_mem x hz))
      omega

theorem joinSep_nl_rows :
    ∀ rows : List String, rows ≠ [] → (∀ x ∈ rows, nlCount x = 0) →
      nlCount (joinSep "\n" rows) = rows.length - 1 := by
  intro rows
  induction rows with
  | nil => intro h; exact absurd rfl h
  | cons x xs ih =>
    intro _ h
    cases xs with
    | nil =>
      simp only [joinSep, List.length_singleton]
      exact h x (List.mem_singleton.mpr rfl)
    | cons y rest =>
      rw [joinSep, nlCount_append, nlCount_append]
      have hx : nlCount x = 0 := h x (List.mem_cons_self _ _)
      have hnl : nlCount "\n" = 1 := rfl
      have hrest : nlCount (joinSep "\n" (y :: rest)) = (y :: rest).length - 1 :=
        ih (by simp) (fun z hz => h z (List.mem_cons_of_mem x hz))
      simp only [List.length_cons] at hrest ⊢
      omega

theorem noLineBreak_no_nl (v : String) (h : noLineBreak v = true) : '\n' ∉ v.data := by
  unfold noLineBreak at h
  simp only [Bool.and_eq_true, Bool.not_eq_true'] at h
  exact (contains_false_iff v.data '\n').mp h.1

theorem buildCSVRow_nlCount (m : Msg) (h : msgNoLineBreak m = true) :
    nlCount (buildCSVRow m) = 0 := by
  unfold msgNoLineBreak at h
  simp only [Bool.and_eq_true] at h
  obtain ⟨⟨⟨⟨hp, hd⟩, hs⟩, hr⟩, ht⟩ := h
  unfold buildCSVRow
  refine joinSep_nlCount_zero "," rfl _ ?_
  intro x hx
  simp only [List.mem_cons, List.not_mem_nil, or_false] at hx
  rcases hx with hx | hx | hx | hx | hx
  · subst hx
    refine escapeCSVField_nlCount _ ?_
    cases hpe : m.platform == "" with
    | true => simp
    | false =>
      simp only [Bool.false_eq_true, if_neg (by simp : ¬(False : Prop))]
      exact noLineBreak_no_nl _ hp
  · subst hx
    exact escapeCSVField_nlCount _ (noLineBreak_no_nl _ hd)
  · subst hx
    exact escapeCSVField_nlCount _ (noLineBreak_no_nl _ hs)
  · subst hx
    exact escapeCSVField_nlCount _ (noLineBreak_no_nl _ hr)
  · subst hx
    exact escapeCSVField_nlCount _ (truncateText_no_nl _ (noLineBreak_no_nl _ ht))

/-- C8 counterexample: for the single message whose text is `"a\nb"`,
the claim predicts `1 + 1 = 2` lines, i.e. exactly one line-feed in the
output; but the quoted field keeps its embedded line feed, so the output
contains two line feeds (three physical lines). -/
theorem buildCSV_lines_counterexample :
    nlCount (buildCSV [{ platform := "Linkedin", messageDateRaw := "2025-01-01",
                         sender := "K", receiver := "A", text := "a\nb", chatKey := "c1" }]) = 2
    ∧ ¬(nlCount (buildCSV [{ platform := "Linkedin", messageDateRaw := "2025-01-01",
                             sender := "K", receiver := "A", text := "a\nb", chatKey := "c1" }]) = 1) := by
  exact ⟨by decide, by decide⟩

theorem doubleQuotes_count_aux :
    ∀ l : List Char,
      ((l.map (fun c => if c == '\"' then ['\"', '\"'] else [c])).flatten).count '\"'
        = 2 * l.count '\"' := by
  intro l
  induction l with
  | nil => rfl
  | cons c cs ih =>
    simp only [List.map_cons, List.flatten_cons, List.count_append, ih]
    by_cases hc : c = '\"'
    · subst hc
      simp [List.count_cons]
      omega
    · have hb : (c == '\"') = false := by
        simp only [beq_eq_false_iff_ne, ne_eq]
        exact hc
      simp [hb, List.count_cons, Ne.symm hc]

/-- Every embedded double quote is doubled by the `replace(/"/g, '""')`
step of `escapeCSVField`: the quote count of `doubleQuotes v` is exactly
twice that of `v` (and no other character is touched). -/
theorem doubleQuotes_count (v : String) :
    (doubleQuotes v).data.count '\"' = 2 * v.data.count '\"' :=
  doubleQuotes_count_aux v.data

/-- C8 amended: `buildCSV`'s output always starts with the byte-order
mark; when the message list is nonempty and no field of any message
contains a line break, the output has exactly `1 + messages.length`
lines (its line-feed count equals `messages.length`); a field containing
no quote, comma or line break is emitted unchanged; and ANY field
containing a quote, comma, or line break is wrapped in double quotes
with every embedded quote doubled: the escaped form is exactly the
quote-doubled body surrounded by one double quote on each side, so its
quote count is twice the field's quote count plus the two wrapping
quotes — in particular `Hello, how are you?` is encoded as that text
wrapped in double quotes, and `say "hi"` as `"say ""hi"""`. -/
theorem buildCSV_amended (messages : List Msg) :
    (buildCSV messages).data.head? = some bomChar
    ∧ (messages ≠ [] → (∀ m ∈ messages, msgNoLineBreak m = true) →
        nlCount (buildCSV messages) = messages.length)
    ∧ (∀ v, needsQuote v = false → escapeCSVField v = v)
    ∧ (∀ v, needsQuote v = true → escapeCSVField v = "\"" ++ doubleQuotes v ++ "\"")
    ∧ (∀ v, (doubleQuotes v).data.count '\"' = 2 * v.data.count '\"')
    ∧ (∀ v, needsQuote v = true →
        (escapeCSVField v).data.count '\"' = 2 * v.data.count '\"' + 2)
    ∧ escapeCSVField "Hello, how are you?" = "\"Hello, how are you?\""
    ∧ escapeCSVField "say \"hi\"" = "\"say \"\"hi\"\"\"" := by
  refine ⟨?_, ?_, ?_, ?_, fun v => doubleQuotes_count v, ?_, by decide, by decide⟩
  · simp [buildCSV, String.data_append, UTF8_BOM]
  · intro hne hclean
    unfold buildCSV
    rw [nlCount_append, nlCount_append, nlCount_append]
    have h0 : nlCount UTF8_BOM = 0 := rfl
    have h1 : nlCount (joinSep "," (CSV_COLUMNS.map escapeCSVField)) = 0 := by decide
    have h2 : nlCount "\n" = 1 := rfl
    have h3 : nlCount (joinSep "\n" (messages.map buildCSVRow))
        = (messages.map buildCSVRow).length - 1 := by
      refine joinSep_nl_rows _ ?_ ?_
      · simp only [ne_eq, List.map_eq_nil_iff]
        exact hne
      · intro x hx
        rcases List.mem_map.mp hx with ⟨m, hm, hxm⟩
        subst hxm
        exact buildCSVRow_nlCount m (hclean m hm)
    rw [h0, h1, h2, h3, List.length_map]
    have : messages.length ≠ 0 := by
      simp only [ne_eq, List.length_eq_zero]
      exact hne
    omega
  · intro v hv
    simp [escapeCSVField, hv]
  · intro v hv
    rw [escapeCSVField, if_pos hv]
  · intro v hv
    rw [escapeCSVField, if_pos hv, String.data_append, String.data_append,
      List.count_append, List.count_append]
    have hq : ("\"" : String).data.count '\"' = 1 := rfl
    have hd := doubleQuotes_count v
    omega

/-- Witness for C8 amended: the one-message list with clean fields
produces a single line feed (two lines), and the field `say "hi"` —
which contains both embedded quotes and no comma — is escaped with its
two embedded quotes doubled plus the two wrapping quotes. -/
theorem buildCSV_amended_witness :
    nlCount (buildCSV [msgHello]) = 1
    ∧ (escapeCSVField "say \"hi\"").data.count '\"'
        = 2 * ("say \"hi\"" : String).data.count '\"' + 2 :=
  ⟨(buildCSV_amended [msgHello]).2.1 (by decide) (by decide),
   (buildCSV_amended []).2.2.2.2.2.1 "say \"hi\"" (by decide)⟩

/-! ## C2 — openChat and URL navigation -/

/-- C2 counterexample: in src/content_script.js, when `openChat` cannot
locate the conversation `abc123` in the (here empty) rendered list, it
does NOT fail: it assigns `location.href` to the thread URL and reports
success — contradicting the claim that `openChat` never assigns the
document's location and that extraction fails with a not-found error. -/
theorem openChat_navigation_counterexample :
    (ContentScriptV1.openChat [] "abc123" "https://www.linkedin.com/messaging/"
        "https://www.linkedin.com" "linkedin").navigatedTo
      = some "https://www.linkedin.com/messaging/thread/abc123/"
    ∧ (ContentScriptV1.openChat [] "abc123" "https://www.linkedin.com/messaging/"
        "https://www.linkedin.com" "linkedin").opened = true
    ∧ ¬((ContentScriptV1.openChat [] "abc123" "https://www.linkedin.com/messaging/"
        "https://www.linkedin.com" "linkedin").navigatedTo = none) := by
  exact ⟨by decide, by decide, by decide⟩

/-- C2 amended: the revised content script (src/unnamed/part_002) obeys
the claim — its `openChat` never assigns the document's location, and
when no list item matches the chatKey (neither by link path nor by
normalized display name) it fails, making `extractChat` return the
"Could not open chat" error. The older src/content_script.js `openChat`,
however, does navigate: for an unmatched, non-synthetic chatKey absent
from the current URL it assigns `location.href` to the thread URL and
reports success. -/
theorem openChat_amended :
    (∀ items chatKey, (ContentScriptV2.openChat items chatKey).navigatedTo = none)
    ∧ (∀ items chatKey rendered collectedMsgs senderName n,
        items.any (convItemMatches chatKey) = false →
        (ContentScriptV2.openChat items chatKey).opened = false
        ∧ extractChat (ContentScriptV2.openChat items chatKey).opened rendered
            collectedMsgs senderName n = ExtractResult.err "Could not open chat")
    ∧ (∀ items chatKey currentUrl origin platformId,
        items.any (convItemMatches chatKey) = false →
        chatKey ≠ "" →
        jsStartsWith chatKey "chat_" = false →
        jsIncludes currentUrl chatKey = false →
        ContentScriptV1.openChat items chatKey currentUrl origin platformId
          = ⟨true, some (navUrl origin platformId chatKey)⟩) := by
  refine ⟨?_, ?_, ?_⟩
  · intro items chatKey
    unfold ContentScriptV2.openChat
    by_cases h : items.any (convItemMatches chatKey) = true
    · rw [if_pos h]
    · rw [if_neg h]
  · intro items chatKey rendered collectedMsgs senderName n h
    have hop : (ContentScriptV2.openChat items chatKey).opened = false := by
      unfold ContentScriptV2.openChat
      rw [if_neg (by simp [h])]
    refine ⟨hop, ?_⟩
    rw [hop]
    rfl
  · intro items chatKey currentUrl origin platformId hany hkey hsyn hurl
    have hkey' : (chatKey == "") = false := by
      simp only [beq_eq_false_iff_ne, ne_eq]
      exact hkey
    unfold ContentScriptV1.openChat
    rw [if_neg (by simp [hany]), if_pos (by simp [hkey', hsyn, hurl])]

/-- Witness for C2 amended: with an empty conversation list, the revised
`openChat` fails and `extractChat` reports the not-found error, while the
older `openChat` navigates to the thread URL. -/
theorem openChat_amended_witness :
    extractChat (ContentScriptV2.openChat [] "abc").opened true [] "Kate Kondrateva" 8
      = ExtractResult.err "Could not open chat"
    ∧ ContentScriptV1.openChat [] "abc" "https://www.linkedin.com/messaging/"
        "https://www.linkedin.com" "linkedin"
      = ⟨true, some (navUrl "https://www.linkedin.com" "linkedin" "abc")⟩ :=
  ⟨(openChat_amended.2.1 [] "abc" true [] "Kate Kondrateva" 8 (by decide)).2,
   openChat_amended.2.2 [] "abc" "https://www.linkedin.com/messaging/"
     "https://www.linkedin.com" "linkedin" (by decide) (by decide) (by decide) (by decide)⟩

/-! ## C6 — scan convergence loop -/

theorem scanLoop_le (counts : Nat → Nat) :
    ∀ fuel i prev streak, maxScrollAttempts - i ≤ fuel → i ≤ maxScrollAttempts →
      scanLoop counts prev streak i ≤ maxScrollAttempts := by
  intro fuel
  induction fuel with
  | zero =>
    intro i prev streak h1 h2
    have hi : ¬(i < maxScrollAttempts) := by omega
    rw [scanLoop, dif_neg hi]
    exact h2
  | succ f ih =>
    intro i prev streak h1 h2
    rw [scanLoop]
    by_cases hi : i < maxScrollAttempts
    · rw [dif_pos hi]
      by_cases hc : counts i = prev
      · rw [if_pos hc]
        by_cases hst : streak + 1 ≥ 3
        · rw [if_pos hst]
          omega
        · rw [if_neg hst]
          exact ih (i + 1) (counts i) (streak + 1) (by omega) (by omega)
      · rw [if_neg hc]
        exact ih (i + 1) (counts i) 0 (by omega) (by omega)
    · rw [dif_neg hi]
      exact h2

theorem scanLoop_stop3 (counts : Nat → Nat) :
    ∀ k i streak, (∀ m, m ≤ k → stableAt counts (i + m)) →
      3 ≤ streak + k + 1 → i + k + 1 ≤ maxScrollAttempts →
      scanLoop counts (prevAt counts i) streak i ≤ i + k + 1 := by
  intro k
  induction k with
  | zero =>
    intro i streak hstab hs hcap
    have h0 : stableAt counts i := by
      have := hstab 0 (Nat.le_refl 0)
      simpa using this
    have hi : i < maxScrollAttempts := by omega
    rw [scanLoop, dif_pos hi, if_pos (show counts i = prevAt counts i from h0),
      if_pos (by omega)]
  | succ k ih =>
    intro i streak hstab hs hcap
    have h0 : stableAt counts i := by
      have := hstab 0 (by omega)
      simpa using this
    have hi : i < maxScrollAttempts := by omega
    rw [scanLoop, dif_pos hi, if_pos (show counts i = prevAt counts i from h0)]
    by_cases hst : streak + 1 ≥ 3
    · rw [if_pos hst]
      omega
    · rw [if_neg hst]
      have hpr : counts i = prevAt counts (i + 1) := rfl
      rw [hpr]
      have := ih (i + 1) (streak + 1)
        (fun m hm => by
          have := hstab (m + 1) (by omega)
          simpa [Nat.add_assoc, Nat.add_comm 1 m] using this)
        (by omega) (by omega)
      omega

theorem scanLoop_reach (counts : Nat → Nat) (j : Nat)
    (h0 : stableAt counts j) (h1 : stableAt counts (j + 1)) (h2 : stableAt counts (j + 2))
    (hj : j + 3 ≤ maxScrollAttempts) :
    ∀ d i streak, i + d = j → scanLoop counts (prevAt counts i) streak i ≤ j + 3 := by
  intro d
  induction d with
  | zero =>
    intro i streak hi
    have hij : i = j := by omega
    subst hij
    have := scanLoop_stop3 counts 2 i streak
      (fun m hm => by
        interval_cases m
        · simpa using h0
        · simpa using h1
        · simpa using h2)
      (by omega) (by omega)
    omega
  | succ d ih =>
    intro i streak hi
    have hilt : i < maxScrollAttempts := by omega
    rw [scanLoop, dif_pos hilt]
    by_cases hc : counts i = prevAt counts i
    · rw [if_pos hc]
      by_cases hst : streak + 1 ≥ 3
      · rw [if_pos hst]
        omega
      · rw [if_neg hst]
        have hpr : counts i = prevAt counts (i + 1) := rfl
        rw [hpr]
        exact ih (i + 1) (streak + 1) (by omega)
    · rw [if_neg hc]
      have hpr : counts i = prevAt counts (i + 1) := rfl
      rw [hpr]
      exact ih (i + 1) 0 (by omega)

/-- C6: the inbox-scan convergence loop always terminates within the
round cap of 30 iterations, for EVERY sequence of observed item counts
(oscillating or not); and whenever three consecutive rounds `j`, `j+1`,
`j+2` observe an unchanged count (each equal to its predecessor's
observation), the loop stops by iteration `j+3` — whichever bound is
smaller applies. -/
theorem scanRounds_bounded (counts : Nat → Nat) :
    scanRounds counts ≤ maxScrollAttempts
    ∧ (∀ j, j + 3 ≤ maxScrollAttempts →
        stableAt counts j → stableAt counts (j + 1) → stableAt counts (j + 2) →
        scanRounds counts ≤ j + 3) := by
  constructor
  · exact scanLoop_le counts maxScrollAttempts 0 0 0 (by omega) (by omega)
  · intro j hj h0 h1 h2
    have := scanLoop_reach counts j h0 h1 h2 hj j 0 0 (by omega)
    have hpr : prevAt counts 0 = 0 := rfl
    rw [hpr] at this
    exact this

/-- Witness for C6: with a constant observed count of 5, rounds 1, 2 and
3 are stable, so the loop stops within 4 iterations (and within the 30
round cap). -/
theorem scanRounds_bounded_witness :
    stableAt (fun _ => 5) 1 ∧ stableAt (fun _ => 5) 2 ∧ stableAt (fun _ => 5) 3
    ∧ scanRounds (fun _ => 5) ≤ 4 ∧ scanRounds (fun _ => 5) ≤ maxScrollAttempts :=
  ⟨rfl, rfl, rfl,
   (scanRounds_bounded (fun _ => 5)).2 1 (by decide) rfl rfl rfl,
   (scanRounds_bounded (fun _ => 5)).1⟩

/-! ## C1 — queue processing and channel-lost errors -/

theorem foldl_processItem (jsDate : String → Option Int) (channel : String → ExtractResult)
    (settings : Option Settings) :
    ∀ (queue : List String) (st : QueueState),
      (queue.foldl (processItem jsDate channel settings) st).attempted
          = st.attempted ++ queue
      ∧ (queue.foldl (processItem jsDate channel settings) st).processedChatKeys
          = st.processedChatKeys ++ queue.filter (fun k => isOkResult (channel k))
      ∧ ((queue.foldl (processItem jsDate channel settings) st).failures).map Prod.fst
          = st.failures.map Prod.fst ++ queue.filter (fun k => !(isOkResult (channel k))) := by
  intro queue
  induction queue with
  | nil =>
    intro st
    simp
  | cons k rest ih =>
    intro st
    rw [List.foldl_cons]
    rcases ih (processItem jsDate channel settings st k) with ⟨h1, h2, h3⟩
    cases hc : channel k with
    | err reason =>
      have hok : isOkResult (channel k) = false := by rw [hc]; rfl
      refine ⟨?_, ?_, ?_⟩
      · rw [h1]
        simp [processItem, hc]
      · rw [h2]
        simp [processItem, hc, List.filter_cons, hok, isOkResult]
      · rw [h3]
        simp [processItem, hc, List.filter_cons, hok, isOkResult]
    | ok resp =>
      have hok : isOkResult (channel k) = true := by rw [hc]; rfl
      refine ⟨?_, ?_, ?_⟩
      · rw [h1]
        simp [processItem, hc]
      · rw [h2]
        simp [processItem, hc, List.filter_cons, hok, isOkResult]
      · rw [h3]
        simp [processItem, hc, List.filter_cons, hok, isOkResult]

/-- C1 counterexample: queue `["a", "b"]`, where the extraction channel
for `a` is unreachable (the content script does not respond) and `b`
succeeds. The claim predicts the run terminates at `a` — attempting only
`["a"]` and reporting `processed = 0` in the final `done` snapshot — but
the code records the channel failure like any per-conversation failure
and continues: both keys are attempted, and the snapshot reports
`processed = 1, failures = 1`. -/
theorem processQueue_continues_counterexample :
    (processQueue jsDateNone channelC1 none ["a", "b"]).1.attempted = ["a", "b"]
    ∧ (processQueue jsDateNone channelC1 none ["a", "b"]).2.processed = 1
    ∧ (processQueue jsDateNone channelC1 none ["a", "b"]).2.failures = 1
    ∧ (processQueue jsDateNone channelC1 none ["a", "b"]).1.failures
        = [("a", channelLostReason)]
    ∧ ¬((processQueue jsDateNone channelC1 none ["a", "b"]).1.attempted = ["a"]
        ∧ (processQueue jsDateNone channelC1 none ["a", "b"]).2.processed = 0) := by
  exact ⟨by decide, by decide, by decide, by decide, by decide⟩

/-- C1 amended: `processQueue` never terminates a run early on a
channel-unreachable error: every queued conversation is attempted, in
order; each conversation whose extraction request fails (the unreachable
channel included) is recorded as exactly one failure; and the final
`done` snapshot reports `processed` equal to the number of successful
conversations, `failures` equal to the number of failed conversations,
and `total` equal to the queue length. -/
theorem processQueue_amended (jsDate : String → Option Int)
    (channel : String → ExtractResult) (settings : Option Settings) (queue : List String) :
    (processQueue jsDate channel settings queue).1.attempted = queue
    ∧ (processQueue jsDate channel settings queue).1.processedChatKeys
        = queue.filter (fun k => isOkResult (channel k))
    ∧ ((processQueue jsDate channel settings queue).1.failures).map Prod.fst
        = queue.filter (fun k => !(isOkResult (channel k)))
    ∧ (processQueue jsDate channel settings queue).2.status = "done"
    ∧ (processQueue jsDate channel settings queue).2.processed
        = (queue.filter (fun k => isOkResult (channel k))).length
    ∧ (processQueue jsDate channel settings queue).2.failures
        = (queue.filter (fun k => !(isOkResult (channel k)))).length
    ∧ (processQueue jsDate channel settings queue).2.total = queue.length := by
  rcases foldl_processItem jsDate channel settings queue initialQueueState with ⟨h1, h2, h3⟩
  have h1' : (processQueue jsDate channel settings queue).1.attempted = queue := by
    rw [show (processQueue jsDate channel settings queue).1
        = queue.foldl (processItem jsDate channel settings) initialQueueState from rfl, h1]
    rfl
  have h2' : (processQueue jsDate channel settings queue).1.processedChatKeys
      = queue.filter (fun k => isOkResult (channel k)) := by
    rw [show (processQueue jsDate channel settings queue).1
        = queue.foldl (processItem jsDate channel settings) initialQueueState from rfl, h2]
    rfl
  have h3' : ((processQueue jsDate channel settings queue).1.failures).map Prod.fst
      = queue.filter (fun k => !(isOkResult (channel k))) := by
    rw [show (processQueue jsDate channel settings queue).1
        = queue.foldl (processItem jsDate channel settings) initialQueueState from rfl, h3]
    rfl
  refine ⟨h1', h2', h3', rfl, ?_, ?_, rfl⟩
  · show (queue.foldl (processItem jsDate channel settings)
        initialQueueState).processedChatKeys.length = _
    rw [show (queue.foldl (processItem jsDate channel settings)
        initialQueueState).processedChatKeys
      = queue.filter (fun k => isOkResult (channel k)) from h2'.symm ▸ h2']
  · show (queue.foldl (processItem jsDate channel settings)
        initialQueueState).failures.length = _
    have := congrArg List.length h3'
    rw [List.length_map] at this
    exact this

/-! ## C10 — mergeByConversation -/

theorem head?_append_left {α : Type} (l : List α) (x : α) (h : l ≠ []) :
    (l ++ [x]).head? = l.head? := by
  cases l with
  | nil => exact absurd rfl h
  | cons a as => rfl

theorem joinSep_append_single (sep : String) :
    ∀ (xs : List String) (y : String), xs ≠ [] →
      joinSep sep (xs ++ [y]) = joinSep sep xs ++ sep ++ y := by
  intro xs
  induction xs with
  | nil => intro y h; exact absurd rfl h
  | cons x rest ih =>
    intro y _
    cases rest with
    | nil => rfl
    | cons z zs =>
      simp only [List.cons_append]
      rw [joinSep]
      conv_rhs => rw [joinSep]
      rw [show joinSep sep (z :: (zs ++ [y])) = joinSep sep (z :: zs) ++ sep ++ y from
        by simpa using ih y (by simp)]
      simp [String.append_assoc]

theorem mem_firstKeys_aux (k : String) :
    ∀ (n : Nat) (l : List Msg), l.length ≤ n →
      (k ∈ firstKeys l ↔ ∃ x ∈ l, x.chatKey = k) := by
  intro n
  induction n with
  | zero =>
    intro l hl
    have : l = [] := List.length_eq_zero.mp (Nat.le_zero.mp hl)
    subst this
    simp [firstKeys]
  | succ n ih =>
    intro l hl
    cases l with
    | nil => simp [firstKeys]
    | cons m rest =>
      rw [firstKeys]
      have hlen : (rest.filter (fun x => !(x.chatKey == m.chatKey))).length ≤ n := by
        have h1 := List.length_filter_le (fun x => !(x.chatKey == m.chatKey)) rest
        simp only [List.length_cons] at hl
        omega
      rw [List.mem_cons, ih _ hlen]
      constructor
      · rintro (hk | ⟨x, hx, hxk⟩)
        · exact ⟨m, List.mem_cons_self m rest, hk.symm⟩
        · have hx' := (List.mem_filter.mp hx).1
          exact ⟨x, List.mem_cons_of_mem m hx', hxk⟩
      · rintro ⟨x, hx, hxk⟩
        rcases List.mem_cons.mp hx with hx | hx
        · subst hx
          exact Or.inl hxk.symm
        · by_cases hk : k = m.chatKey
          · exact Or.inl hk
          · refine Or.inr ⟨x, List.mem_filter.mpr ⟨hx, ?_⟩, hxk⟩
            simp only [Bool.not_eq_true', beq_eq_false_iff_ne, ne_eq]
            rw [hxk]
            exact hk

theorem mem_firstKeys (k : String) (l : List Msg) :
    k ∈ firstKeys l ↔ ∃ x ∈ l, x.chatKey = k :=
  mem_firstKeys_aux k l.length l (Nat.le_refl _)

theorem firstKeys_append_aux (m : Msg) :
    ∀ (n : Nat) (l : List Msg), l.length ≤ n →
      firstKeys (l ++ [m])
        = if m.chatKey ∈ firstKeys l then firstKeys l else firstKeys l ++ [m.chatKey] := by
  intro n
  induction n with
  | zero =>
    intro l hl
    have : l = [] := List.length_eq_zero.mp (Nat.le_zero.mp hl)
    subst this
    simp [firstKeys]
  | succ n ih =>
    intro l hl
    cases l with
    | nil => simp [firstKeys]
    | cons x rest =>
      rw [List.cons_append, firstKeys, List.filter_append]
      by_cases hmx : m.chatKey = x.chatKey
      · have hfm : [m].filter (fun y => !(y.chatKey == x.chatKey)) = [] := by
          simp [hmx]
        rw [hfm, List.append_nil]
        have hmem : m.chatKey ∈ firstKeys (x :: rest) := by
          rw [firstKeys, List.mem_cons]
          exact Or.inl hmx
        rw [if_pos hmem, firstKeys]
      · have hfm : [m].filter (fun y => !(y.chatKey == x.chatKey)) = [m] := by
          simp [hmx]
        rw [hfm]
        have hlen : (rest.filter (fun y => !(y.chatKey == x.chatKey))).length ≤ n := by
          have h1 := List.length_filter_le (fun y => !(y.chatKey == x.chatKey)) rest
          simp only [List.length_cons] at hl
          omega
        rw [ih _ hlen]
        have hcond : (m.chatKey ∈ firstKeys (rest.filter (fun y => !(y.chatKey == x.chatKey))))
            ↔ (m.chatKey ∈ firstKeys (x :: rest)) := by
          rw [firstKeys, List.mem_cons]
          constructor
          · exact Or.inr
          · rintro (h | h)
            · exact absurd h hmx
            · exact h
        by_cases hm2 : m.chatKey ∈ firstKeys (rest.filter (fun y => !(y.chatKey == x.chatKey)))
        · rw [if_pos hm2, if_pos (hcond.mp hm2), firstKeys]
        · rw [if_neg hm2, if_neg (fun h => hm2 (hcond.mpr h)), firstKeys, List.cons_append]

theorem firstKeys_append (m : Msg) (l : List Msg) :
    firstKeys (l ++ [m])
      = if m.chatKey ∈ firstKeys l then firstKeys l else firstKeys l ++ [m.chatKey] :=
  firstKeys_append_aux m l.length l (Nat.le_refl _)

theorem entryOf_append_ne (k : String) (l : List Msg) (m : Msg) (h : ¬ m.chatKey = k) :
    entryOf k (l ++ [m]) = entryOf k l := by
  have hfil : (l ++ [m]).filter (fun x => x.chatKey == k)
      = l.filter (fun x => x.chatKey == k) := by
    rw [List.filter_append]
    simp [h]
  simp only [entryOf, hfil]

theorem entryOf_append_eq (k : String) (l : List Msg) (m : Msg) (hm : m.chatKey = k)
    (hne : l.filter (fun x => x.chatKey == k) ≠ []) :
    entryOf k (l ++ [m])
      = { entryOf k l with
          messageDateRaw := (entryOf k l).messageDateRaw ++ "; " ++ m.messageDateRaw
          texts := (entryOf k l).texts ++ [m.text] } := by
  have hfil : (l ++ [m]).filter (fun x => x.chatKey == k)
      = l.filter (fun x => x.chatKey == k) ++ [m] := by
    rw [List.filter_append]
    simp [hm]
  have hmapne : (l.filter (fun x => x.chatKey == k)).map Msg.messageDateRaw ≠ [] := by
    intro hmap
    exact hne (List.map_eq_nil_iff.mp hmap)
  simp only [entryOf, hfil]
  rw [head?_append_left _ m hne, List.map_append, List.map_append, List.map_cons,
    List.map_nil, List.map_cons, List.map_nil,
    joinSep_append_single "; " _ _ hmapne]

theorem entryOf_append_new (k : String) (l : List Msg) (m : Msg) (hm : m.chatKey = k)
    (hemp : l.filter (fun x => x.chatKey == k) = []) :
    entryOf k (l ++ [m])
      = { platform := m.platform, messageDateRaw := m.messageDateRaw,
          sender := m.sender, receiver := m.receiver,
          chatKey := k, texts := [m.text] } := by
  have hfil : (l ++ [m]).filter (fun x => x.chatKey == k) = [m] := by
    rw [List.filter_append, hemp, List.nil_append]
    simp [hm]
  simp only [entryOf, hfil]
  simp [joinSep]

theorem insertMsg_specEntries (l : List Msg) (m : Msg) :
    insertMsg (specEntries l) m = specEntries (l ++ [m]) := by
  by_cases hC : m.chatKey ∈ firstKeys l
  · have hany : (specEntries l).any (fun e => e.chatKey == m.chatKey) = true := by
      rw [List.any_eq_true]
      refine ⟨entryOf m.chatKey l, ?_, by simp [entryOf]⟩
      rw [specEntries]
      exact List.mem_map_of_mem _ hC
    rw [insertMsg, if_pos hany]
    rw [specEntries, specEntries, firstKeys_append m l, if_pos hC, List.map_map]
    apply List.map_congr_left
    intro k hk
    simp only [Function.comp]
    by_cases hkm : k = m.chatKey
    · subst hkm
      have hbeq : ((entryOf m.chatKey l).chatKey == m.chatKey) = true := by
        simp [entryOf]
      rw [if_pos hbeq]
      have hfil : l.filter (fun x => x.chatKey == m.chatKey) ≠ [] := by
        rcases (mem_firstKeys m.chatKey l).mp hC with ⟨x, hx, hxk⟩
        exact List.ne_nil_of_mem
          (List.mem_filter.mpr ⟨hx, by simp [hxk]⟩)
      exact (entryOf_append_eq m.chatKey l m rfl hfil).symm
    · have hbeq : ((entryOf k l).chatKey == m.chatKey) = false := by
        simp only [entryOf]
        simp only [beq_eq_false_iff_ne, ne_eq]
        exact hkm
      rw [if_neg (by simp [hbeq])]
      exact (entryOf_append_ne k l m (Ne.symm hkm)).symm
  · have hany : (specEntries l).any (fun e => e.chatKey == m.chatKey) = false := by
      rw [Bool.eq_false_iff]
      intro hcontra
      rw [List.any_eq_true] at hcontra
      rcases hcontra with ⟨e, he, hbeq⟩
      rw [specEntries] at he
      rcases List.mem_map.mp he with ⟨k, hk, hek⟩
      subst hek
      have hkm : k = m.chatKey := by simpa [entryOf] using hbeq
      exact hC (hkm ▸ hk)
    rw [insertMsg, if_neg (by simp [hany])]
    rw [specEntries, specEntries, firstKeys_append m l, if_neg hC, List.map_append]
    congr 1
    · apply List.map_congr_left
      intro k hk
      have hkm : ¬ m.chatKey = k := by
        intro h
        rw [h] at hC
        exact hC hk
      exact (entryOf_append_ne k l m hkm).symm
    · simp only [List.map_cons, List.map_nil]
      have hemp : l.filter (fun x => x.chatKey == m.chatKey) = [] := by
        refine List.filter_eq_nil_iff.mpr ?_
        intro x hx
        simp only [beq_iff_eq]
        intro hxk
        exact hC ((mem_firstKeys m.chatKey l).mpr ⟨x, hx, hxk⟩)
      rw [entryOf_append_new m.chatKey l m rfl hemp]

theorem groupMsgs_eq_specEntries : ∀ l : List Msg, groupMsgs l = specEntries l := by
  intro l
  induction l using List.reverseRecOn with
  | nil => simp [groupMsgs, specEntries, firstKeys]
  | append_singleton l m ih =>
    rw [groupMsgs, List.foldl_append, List.foldl_cons, List.foldl_nil]
    rw [show List.foldl insertMsg [] l = groupMsgs l from rfl, ih, insertMsg_specEntries]

/-- C10: `mergeByConversation` returns exactly one row per distinct
chatKey, in order of each chatKey's first appearance in the input; each
row's platform, sender and receiver are copied from the first input
message bearing that chatKey, its `messageDateRaw` is the raw date
strings of all that conversation's messages joined with `"; "` in input
order, and its text is the texts joined with `" | "` in input order,
truncated to 500 characters with an ellipsis if cut (the statement
`mergeByConversationSpec` spells this out). -/
theorem mergeByConversation_correct (messages : List Msg) :
    mergeByConversation messages = mergeByConversationSpec messages
    ∧ (mergeByConversation messages).map Msg.chatKey = firstKeys messages := by
  have h := groupMsgs_eq_specEntries messages
  constructor
  · rw [mergeByConversation, h, specEntries, mergeByConversationSpec, List.map_map]
    rfl
  · rw [mergeByConversation, h, specEntries, List.map_map, List.map_map]
    have hpt : ∀ k ∈ firstKeys messages,
        ((Msg.chatKey ∘ finalizeEntry) ∘ fun k => entryOf k messages) k = (fun a => a) k :=
      fun _ _ => rfl
    rw [List.map_congr_left hpt, List.map_id']

end ChatExport
